import Mathlib

/-!
Shallow embedding of the runtime health/availability subsystem of the
Lingelo/Proxy repository: the metrics registry (src/utils/metrics.ts), the
health checker with its per-target circuit breaker (src/core/monitoring.ts),
and the target-selection function of the proxy server (src/core/server.ts,
`findAvailableUrl`).

Modelling conventions:
* JavaScript numbers are modelled as `Int` (all values the claims exercise
  are integers); the arithmetic mean of a histogram is modelled as `ℚ`.
* `Date.now()` timestamps are `Nat` parameters threaded explicitly.
* Each JavaScript `Map` is modelled either as a function `String → Option _`
  (the counter, gauge, histogram, failureCount and circuitBreakerOpenUntil
  maps, which the code only reads pointwise) or, for the `healthStatus` map
  whose values are iterated in insertion order, as an association list with
  insert-or-replace semantics matching `Map.prototype.set`.
* The outcome of the single `axios.get` probe inside `checkTarget` is an
  explicit `ProbeResult` parameter; `checkTarget` additionally returns a
  `Bool` recording whether the probe was issued at all (the code returns
  early, issuing no request, when the circuit breaker is open).
* `values.sort((a, b) => a - b)` sorts ascending; over `Int` any ascending
  sort of the same multiset yields the same list, so it is modelled by
  `List.insertionSort (· ≤ ·)`.
* `Math.floor(count * 0.95)` is modelled as `count * 95 / 100` (`Nat` floor
  division): for every count reachable by the code (histograms retain at
  most 1000 samples) the double-precision product `count * 0.95` rounds to
  a value with the same floor, since `Float 0.95` differs from `19 / 20` by
  a relative error below `2 ^ (-54)`.
* Writes of probe latencies into the metrics registry and of the aggregate
  gauges at the end of a probe cycle are omitted from the health-checker
  state transition: no claim mentions them and they touch no health state.
-/

namespace Proxy

/-- Histogram sample, src/utils/metrics.ts `MetricEntry`. -/
structure MetricEntry where
  timestamp : Nat
  value : Int
deriving Repr, DecidableEq

/-- State of the `Metrics` class of src/utils/metrics.ts: its three maps. -/
structure Metrics where
  counters : String → Option Int
  histograms : String → Option (List MetricEntry)
  gauges : String → Option Int

/-- The freshly constructed registry: three empty maps. -/
def Metrics.empty : Metrics := ⟨fun _ => none, fun _ => none, fun _ => none⟩

/-- `incrementCounter(name, value = 1)`: reads the counter (0 when absent)
and stores the sum. -/
def Metrics.incrementCounter (m : Metrics) (name : String) (value : Int := 1) :
    Metrics :=
  let current := (m.counters name).getD 0
  { m with counters := fun n => if n = name then some (current + value) else m.counters n }

/-- `recordHistogram(name, value)`: appends a timestamped sample and, when
the series then exceeds 1000 entries, shifts off the oldest one. -/
def Metrics.recordHistogram (m : Metrics) (now : Nat) (name : String) (value : Int) :
    Metrics :=
  let entries := (m.histograms name).getD []
  let entries := entries ++ [⟨now, value⟩]
  let entries := if entries.length > 1000 then entries.tail else entries
  { m with histograms := fun n => if n = name then some entries else m.histograms n }

/-- The entries-level core of `recordHistogram`: append one sample, then
shift off the front when the 1000-sample bound is exceeded. -/
def recordValue (es : List MetricEntry) (e : MetricEntry) : List MetricEntry :=
  let es' := es ++ [e]
  if es'.length > 1000 then es'.tail else es'

/-- `setGauge(name, value)`: unconditional overwrite. -/
def Metrics.setGauge (m : Metrics) (name : String) (value : Int) : Metrics :=
  { m with gauges := fun n => if n = name then some value else m.gauges n }

/-- `getCounter(name)`: the stored value, or 0 when the name was never set. -/
def Metrics.getCounter (m : Metrics) (name : String) : Int :=
  (m.counters name).getD 0

/-- `getGauge(name)`: the stored value, or `undefined` (here `none`). -/
def Metrics.getGauge (m : Metrics) (name : String) : Option Int :=
  m.gauges name

/-- The record `getHistogramStats` returns when the series is non-empty. -/
structure HistogramStats where
  count : Nat
  avg : ℚ
  min : Int
  max : Int
  p95 : Int
deriving Repr, DecidableEq

/-- `getHistogramStats(name)`: `null` for an absent or empty series;
otherwise count, mean, min, max and the nearest-rank p95 over the sorted
values (`p95Index = Math.floor(count * 0.95)`, see the header note on the
floating-point floor). -/
def Metrics.getHistogramStats (m : Metrics) (name : String) :
    Option HistogramStats :=
  match m.histograms name with
  | none => none
  | some entries =>
    if entries.length = 0 then none
    else
      let values : List Int := List.insertionSort (· ≤ ·) (entries.map (·.value))
      let count := values.length
      let sum : Int := values.sum
      let avg : ℚ := (sum : ℚ) / (count : ℚ)
      let vmin : Int := values.headD 0
      let vmax : Int := values.getLastD 0
      let p95Index := count * 95 / 100
      let p95 := values.getD p95Index 0
      some ⟨count, avg, vmin, vmax, p95⟩

/-- `reset()`: clears the three maps. -/
def Metrics.reset (_m : Metrics) : Metrics := Metrics.empty

/-- One call into the registry's mutating interface. -/
inductive MetricsOp where
  | incCounter (name : String) (value : Int)
  | gauge (name : String) (value : Int)
  | histogram (now : Nat) (name : String) (value : Int)
  | reset
deriving Repr, DecidableEq

/-- Execute one registry call. -/
def MetricsOp.apply (m : Metrics) : MetricsOp → Metrics
  | .incCounter n v => m.incrementCounter n v
  | .gauge n v => m.setGauge n v
  | .histogram t n v => m.recordHistogram t n v
  | .reset => m.reset

/-- Whether a registry call writes under the given metric name (`reset`
deletes, it writes nothing). -/
def MetricsOp.writes (name : String) : MetricsOp → Bool
  | .incCounter n _ => n == name
  | .gauge n _ => n == name
  | .histogram _ n _ => n == name
  | .reset => false

/-- Execute a sequence of registry calls, oldest first. -/
def Metrics.applyOps (m : Metrics) (ops : List MetricsOp) : Metrics :=
  ops.foldl MetricsOp.apply m

/-- `TargetHealth` of src/core/monitoring.ts. -/
structure TargetHealth where
  url : String
  healthy : Bool
  responseTime : Option Nat
  lastCheck : Nat
  error : Option String
deriving Repr, DecidableEq

/-- `Map.prototype.set` on the insertion-ordered `healthStatus` map: replace
in place when the key exists, append otherwise. -/
def mapSet (m : List (String × TargetHealth)) (key : String) (v : TargetHealth) :
    List (String × TargetHealth) :=
  if m.any (fun p => p.1 == key) then
    m.map (fun p => if p.1 == key then (key, v) else p)
  else m ++ [(key, v)]

/-- Mutable state of the `HealthChecker` class: the `healthStatus`,
`failureCount` and `circuitBreakerOpenUntil` maps. -/
structure HealthState where
  healthStatus : List (String × TargetHealth)
  failureCount : String → Option Nat
  circuitBreakerOpenUntil : String → Option Nat

/-- The freshly constructed checker: three empty maps. -/
def HealthState.initial : HealthState := ⟨[], fun _ => none, fun _ => none⟩

/-- `isCircuitOpen(url)`: open while `Date.now() < openUntil`. (The stored
`openUntil` is always `now + 60000 > 0`, so the JavaScript truthiness test
on it coincides with presence in the map.) -/
def isCircuitOpen (s : HealthState) (now : Nat) (url : String) : Bool :=
  match s.circuitBreakerOpenUntil url with
  | some openUntil => now < openUntil
  | none => false

/-- `recordSuccess(url)`: delete the url from both breaker maps. -/
def recordSuccess (s : HealthState) (url : String) : HealthState :=
  { s with
    failureCount := fun u => if u = url then none else s.failureCount u
    circuitBreakerOpenUntil := fun u =>
      if u = url then none else s.circuitBreakerOpenUntil u }

/-- `recordFailure(url)`: increment the consecutive-failure count (0 when
absent) and, once it reaches `config.circuitBreakerThreshold`, open the
circuit for a fixed 60 seconds (`Date.now() + 60000`). -/
def recordFailure (s : HealthState) (threshold now : Nat) (url : String) :
    HealthState :=
  let failures := (s.failureCount url).getD 0 + 1
  let s' := { s with
    failureCount := fun u => if u = url then some failures else s.failureCount u }
  if threshold ≤ failures then
    { s' with circuitBreakerOpenUntil := fun u =>
        if u = url then some (now + 60000) else s'.circuitBreakerOpenUntil u }
  else s'

/-- Outcome of the single `axios.get` probe inside `checkTarget`. -/
inductive ProbeResult where
  | success (responseTime : Nat)
  | failure (message : String)
deriving Repr, DecidableEq

/-- `checkTarget(url)`: skip entirely (no probe) while the breaker is open;
otherwise record the probe outcome into `healthStatus` and the breaker maps.
The second component tells whether a probe request was issued. -/
def checkTarget (s : HealthState) (threshold now : Nat) (probe : ProbeResult)
    (url : String) : HealthState × Bool :=
  if isCircuitOpen s now url then (s, false)
  else
    match probe with
    | .success rt =>
        let rec_ : TargetHealth := ⟨url, true, some rt, now, none⟩
        let s' := { s with healthStatus := mapSet s.healthStatus url rec_ }
        (recordSuccess s' url, true)
    | .failure msg =>
        let rec_ : TargetHealth := ⟨url, false, none, now, some msg⟩
        let s' := { s with healthStatus := mapSet s.healthStatus url rec_ }
        (recordFailure s' threshold now url, true)

/-- `checkAllTargets()`: run `checkTarget` for every configured target.
(The code launches them concurrently and joins with `Promise.allSettled`;
each probe touches only its own target's entries, so the joint effect on
the health state is the fold below.) -/
def checkAllTargets (s : HealthState) (threshold now : Nat)
    (probes : String → ProbeResult) (targets : List String) : HealthState :=
  targets.foldl (fun s url => (checkTarget s threshold now (probes url) url).1) s

/-- `getHealthyTargets()`: urls of the records currently marked healthy. -/
def getHealthyTargets (s : HealthState) : List String :=
  ((s.healthStatus.map (·.2)).filter (·.healthy)).map (·.url)

/-- `getHealthStatus()`: all records, in insertion order. -/
def getHealthStatus (s : HealthState) : List TargetHealth :=
  s.healthStatus.map (·.2)

/-- The tri-state summary of `getOverallHealth()`. -/
inductive OverallStatus where
  | healthy
  | degraded
  | unhealthy
deriving Repr, DecidableEq

/-- `getOverallHealth().status`: healthy when every tracked record is
healthy, degraded when at least one (but not all) is, unhealthy otherwise. -/
def getOverallHealth (s : HealthState) : OverallStatus :=
  let targets := getHealthStatus s
  let healthyCount := (targets.filter (·.healthy)).length
  let totalCount := targets.length
  if healthyCount = totalCount then .healthy
  else if healthyCount > 0 then .degraded
  else .unhealthy

/-- The HTTP status code `handleHealthEndpoint` writes:
`health.status === 'unhealthy' ? 503 : 200`. -/
def handleHealthEndpointStatus (s : HealthState) : Nat :=
  if getOverallHealth s = .unhealthy then 503 else 200

/-- `findAvailableUrl()` of src/core/server.ts: `null` when no target is
healthy, otherwise `healthyTargets[k]` where `k = Math.floor(Math.random()
* healthyTargets.length)` — the random draw is the explicit parameter `k`,
which the code keeps below `healthyTargets.length`. -/
def findAvailableUrl (s : HealthState) (k : Nat) : Option String :=
  let healthyTargets := getHealthyTargets s
  if healthyTargets.length = 0 then none
  else healthyTargets.get? k

/-- The set of urls tracked by the `healthStatus` map. -/
def healthKeys (s : HealthState) : List String :=
  s.healthStatus.map (·.1)

/-- A two-target snapshot: target "A" probed healthy, target "B" probed
unhealthy. -/
def exampleState : HealthState :=
  { healthStatus :=
      [("A", ⟨"A", true, some 5, 0, none⟩),
       ("B", ⟨"B", false, none, 0, some "connection refused"⟩)]
    failureCount := fun u => if u = "B" then some 1 else none
    circuitBreakerOpenUntil := fun _ => none }

/-! ### Helper lemmas -/

/-- Folding `incrementCounter` adds the sum of the increments. -/
theorem getCounter_foldl (name : String) (vs : List Int) (m : Metrics) :
    Metrics.getCounter (vs.foldl (fun m v => m.incrementCounter name v) m) name
      = m.getCounter name + vs.sum := by
  induction vs generalizing m with
  | nil => simp
  | cons v rest ih =>
      rw [List.foldl_cons, ih]
      simp [Metrics.incrementCounter, Metrics.getCounter]
      ring

/-- `getHistogramStats` only reads the series stored under the queried
name. -/
theorem getHistogramStats_congr (m m' : Metrics) (name : String)
    (h : m.histograms name = m'.histograms name) :
    m.getHistogramStats name = m'.getHistogramStats name := by
  unfold Metrics.getHistogramStats
  rw [h]

/-- A registry call that does not write under `name`, applied to a registry
holding the defaults at `name`, leaves the defaults in place. -/
theorem defaults_preserved (name : String) (m : Metrics) (op : MetricsOp)
    (h0 : m.getCounter name = 0 ∧ m.getGauge name = none ∧
      m.getHistogramStats name = none)
    (hw : op.writes name = false) :
    (MetricsOp.apply m op).getCounter name = 0 ∧
    (MetricsOp.apply m op).getGauge name = none ∧
    (MetricsOp.apply m op).getHistogramStats name = none := by
  obtain ⟨hc, hg, hh⟩ := h0
  cases op with
  | incCounter n v =>
      have hne : ¬ (n = name) := by simpa [MetricsOp.writes] using hw
      refine ⟨?_, hg, ?_⟩
      · simp only [MetricsOp.apply, Metrics.incrementCounter, Metrics.getCounter]
        rw [if_neg (fun h => hne h.symm)]
        exact hc
      · exact (getHistogramStats_congr
          (MetricsOp.apply m (MetricsOp.incCounter n v)) m name rfl).trans hh
  | gauge n v =>
      have hne : ¬ (n = name) := by simpa [MetricsOp.writes] using hw
      refine ⟨hc, ?_, ?_⟩
      · simp only [MetricsOp.apply, Metrics.setGauge, Metrics.getGauge]
        rw [if_neg (fun h => hne h.symm)]
        exact hg
      · exact (getHistogramStats_congr
          (MetricsOp.apply m (MetricsOp.gauge n v)) m name rfl).trans hh
  | histogram t n v =>
      have hne : ¬ (n = name) := by simpa [MetricsOp.writes] using hw
      refine ⟨hc, hg, ?_⟩
      have hist_eq : (MetricsOp.apply m (MetricsOp.histogram t n v)).histograms name
          = m.histograms name := by
        simp only [MetricsOp.apply, Metrics.recordHistogram]
        rw [if_neg (fun h => hne h.symm)]
      exact (getHistogramStats_congr
        (MetricsOp.apply m (MetricsOp.histogram t n v)) m name hist_eq).trans hh
  | reset =>
      exact ⟨rfl, rfl, rfl⟩

/-- Defaults at an unwritten name survive any sequence of registry calls. -/
theorem defaults_preserved_foldl (name : String) (ops : List MetricsOp)
    (m : Metrics)
    (h0 : m.getCounter name = 0 ∧ m.getGauge name = none ∧
      m.getHistogramStats name = none)
    (h : ∀ op ∈ ops, op.writes name = false) :
    (m.applyOps ops).getCounter name = 0 ∧
    (m.applyOps ops).getGauge name = none ∧
    (m.applyOps ops).getHistogramStats name = none := by
  induction ops generalizing m with
  | nil => simpa [Metrics.applyOps] using h0
  | cons op rest ih =>
      have h1 := defaults_preserved name m op h0 (h op (by simp))
      have := ih (MetricsOp.apply m op) h1 (fun o ho => h o (by simp [ho]))
      simpa [Metrics.applyOps] using this

/-- The empty registry holds the defaults at every name. -/
theorem empty_defaults (name : String) :
    Metrics.empty.getCounter name = 0 ∧
    Metrics.empty.getGauge name = none ∧
    Metrics.empty.getHistogramStats name = none := by
  simp [Metrics.empty, Metrics.getCounter, Metrics.getGauge,
    Metrics.getHistogramStats]

/-! ### The claims -/

/-- C5: for every counter name and every finite sequence of
`incrementCounter(n, v)` calls (negative `v` allowed, never rejected,
strictly decreasing the stored value), `getCounter(n)` equals the sum of the
`v` values afterwards, and 0 when no call was made. -/
theorem counter_accumulates_sum (name : String) (vs : List Int) :
    Metrics.getCounter
        (vs.foldl (fun m v => m.incrementCounter name v) Metrics.empty) name
      = vs.sum ∧
    Metrics.getCounter Metrics.empty name = 0 ∧
    (∀ (m : Metrics) (v : Int), v < 0 →
      (m.incrementCounter name v).getCounter name < m.getCounter name) := by
  refine ⟨?_, ?_, ?_⟩
  · rw [getCounter_foldl]
    simp [Metrics.getCounter, Metrics.empty]
  · simp [Metrics.getCounter, Metrics.empty]
  · intro m v hv
    simp [Metrics.incrementCounter, Metrics.getCounter]
    omega

/-- C7: `getCounter`, `getGauge` and `getHistogramStats` return 0, `none`
and `none` for a name no call of the sequence ever wrote, and `reset()`
restores exactly those defaults for every name. -/
theorem unwritten_and_reset_defaults (name : String) (ops : List MetricsOp)
    (h : ∀ op ∈ ops, op.writes name = false) :
    ((Metrics.empty.applyOps ops).getCounter name = 0 ∧
     (Metrics.empty.applyOps ops).getGauge name = none ∧
     (Metrics.empty.applyOps ops).getHistogramStats name = none) ∧
    (∀ (m : Metrics) (n : String),
      (m.reset).getCounter n = 0 ∧
      (m.reset).getGauge n = none ∧
      (m.reset).getHistogramStats n = none) := by
  refine ⟨defaults_preserved_foldl name ops Metrics.empty (empty_defaults name) h,
    fun m n => ?_⟩
  simpa [Metrics.reset] using empty_defaults n

/-- Witness for C7: a concrete trace writing other names (and resetting)
leaves the queried name at its defaults. -/
theorem unwritten_and_reset_defaults_witness :
    ((Metrics.empty.applyOps
        [MetricsOp.incCounter "other" 5, MetricsOp.gauge "g" 2,
         MetricsOp.histogram 1 "h" 3, MetricsOp.reset]).getCounter "x" = 0 ∧
     (Metrics.empty.applyOps
        [MetricsOp.incCounter "other" 5, MetricsOp.gauge "g" 2,
         MetricsOp.histogram 1 "h" 3, MetricsOp.reset]).getGauge "x" = none ∧
     (Metrics.empty.applyOps
        [MetricsOp.incCounter "other" 5, MetricsOp.gauge "g" 2,
         MetricsOp.histogram 1 "h" 3, MetricsOp.reset]).getHistogramStats "x"
       = none) ∧
    (∀ (m : Metrics) (n : String),
      (m.reset).getCounter n = 0 ∧
      (m.reset).getGauge n = none ∧
      (m.reset).getHistogramStats n = none) :=
  unwritten_and_reset_defaults "x"
    [MetricsOp.incCounter "other" 5, MetricsOp.gauge "g" 2,
     MetricsOp.histogram 1 "h" 3, MetricsOp.reset] (by decide)

/-- C8: the `/health` handler answers 503 exactly when the overall status is
unhealthy and 200 otherwise, degraded included. -/
theorem health_endpoint_status_code (s : HealthState) :
    (handleHealthEndpointStatus s = 503 ↔ getOverallHealth s = .unhealthy) ∧
    (handleHealthEndpointStatus s = 200 ↔ getOverallHealth s ≠ .unhealthy) ∧
    (getOverallHealth s = .degraded → handleHealthEndpointStatus s = 200) := by
  unfold handleHealthEndpointStatus
  by_cases h : getOverallHealth s = .unhealthy <;> simp [h]

/-- C1: `recordFailure` stores the incremented consecutive-failure count and
opens the breaker (`openUntil = now + 60000`) exactly when that count has
reached the threshold, leaving `openUntil` untouched below it; and a
`checkTarget` call that runs while `now < openUntil` issues no probe and
leaves the whole target state (its `TargetHealth` included) unchanged. -/
theorem breaker_opens_at_threshold (s : HealthState)
    (threshold now t : Nat) (url : String) (probe : ProbeResult) :
    ((recordFailure s threshold now url).failureCount url
        = some ((s.failureCount url).getD 0 + 1) ∧
     (threshold ≤ (s.failureCount url).getD 0 + 1 →
       (recordFailure s threshold now url).circuitBreakerOpenUntil url
         = some (now + 60000)) ∧
     ((s.failureCount url).getD 0 + 1 < threshold →
       (recordFailure s threshold now url).circuitBreakerOpenUntil url
         = s.circuitBreakerOpenUntil url)) ∧
    (s.circuitBreakerOpenUntil url = some t → now < t →
      checkTarget s threshold now probe url = (s, false)) := by
  constructor
  · refine ⟨?_, ?_, ?_⟩
    · simp [recordFailure]
      split <;> simp
    · intro hth
      simp [recordFailure, if_pos hth]
    · intro hth
      simp [recordFailure, if_neg (by omega : ¬ threshold ≤ (s.failureCount url).getD 0 + 1)]
  · intro ho hlt
    simp [checkTarget, isCircuitOpen, ho, hlt]

/-- C10: a successful probe (and nothing else) clears both the
consecutive-failure count and `openUntil`; once the breaker has opened and
its cooldown has expired, a single further probe failure re-opens it for
another 60 seconds. -/
theorem breaker_reopens_after_cooldown (s : HealthState)
    (threshold now t : Nat) (url msg : String) :
    ((recordSuccess s url).failureCount url = none ∧
     (recordSuccess s url).circuitBreakerOpenUntil url = none) ∧
    (s.circuitBreakerOpenUntil url = some t → t ≤ now →
      threshold ≤ (s.failureCount url).getD 0 →
      (checkTarget s threshold now (.failure msg) url).2 = true ∧
      ((checkTarget s threshold now (.failure msg) url).1).failureCount url
        = some ((s.failureCount url).getD 0 + 1) ∧
      ((checkTarget s threshold now (.failure msg) url).1).circuitBreakerOpenUntil url
        = some (now + 60000)) := by
  constructor
  · simp [recordSuccess]
  · intro ho hle hth
    have hopen : isCircuitOpen s now url = false := by
      simp [isCircuitOpen, ho]
      omega
    refine ⟨?_, ?_, ?_⟩
    · simp [checkTarget, hopen]
    · simp [checkTarget, hopen, recordFailure]
      split <;> simp
    · simp [checkTarget, hopen, recordFailure,
        if_pos (by omega : threshold ≤ (s.failureCount url).getD 0 + 1)]

/-- C2: with at least one tracked record (the configured targets, once the
first probe cycle has run — C9 — and the validated configuration has at
least one target), `getOverallHealth` is healthy iff every record is
healthy, unhealthy iff none is, and degraded iff some but not all are,
purely as a function of the snapshot. -/
theorem overall_health_tristate (s : HealthState)
    (hne : getHealthStatus s ≠ []) :
    (getOverallHealth s = .healthy ↔ ∀ t ∈ getHealthStatus s, t.healthy = true) ∧
    (getOverallHealth s = .unhealthy ↔ ∀ t ∈ getHealthStatus s, t.healthy = false) ∧
    (getOverallHealth s = .degraded ↔
      ((∃ t ∈ getHealthStatus s, t.healthy = true) ∧
       (∃ t ∈ getHealthStatus s, t.healthy = false))) := by
  simp only [getOverallHealth]
  set l := getHealthStatus s with hl
  have hF : (l.filter (·.healthy)).length ≤ l.length := List.length_filter_le _ _
  have hAll : (l.filter (·.healthy)).length = l.length ↔
      ∀ t ∈ l, t.healthy = true := by
    rw [← List.countP_eq_length_filter]
    exact List.countP_eq_length
  have hNone : (l.filter (·.healthy)).length = 0 ↔
      ∀ t ∈ l, t.healthy = false := by
    rw [List.length_eq_zero, List.filter_eq_nil_iff]
    simp
  have hPos : 0 < (l.filter (·.healthy)).length ↔
      ∃ t ∈ l, t.healthy = true := by
    rw [← List.countP_eq_length_filter]
    exact List.countP_pos_iff
  have hlen : 0 < l.length := List.length_pos.mpr hne
  by_cases h1 : (l.filter (·.healthy)).length = l.length
  · rw [if_pos h1]
    obtain ⟨t0, ht0⟩ := List.exists_mem_of_length_pos hlen
    have hall := hAll.mp h1
    refine ⟨iff_of_true rfl hall, ?_, ?_⟩
    · simp only [show (OverallStatus.healthy = OverallStatus.unhealthy) = False by
        simp]
      constructor
      · exact fun h => h.elim
      · intro h
        exact absurd (hall t0 ht0) (by simp [h t0 ht0])
    · simp only [show (OverallStatus.healthy = OverallStatus.degraded) = False by
        simp]
      constructor
      · exact fun h => h.elim
      · rintro ⟨-, t, ht, hfalse⟩
        exact absurd (hall t ht) (by simp [hfalse])
  · rw [if_neg h1]
    by_cases h2 : (l.filter (·.healthy)).length > 0
    · rw [if_pos h2]
      have hlt : (l.filter (·.healthy)).length < l.length := lt_of_le_of_ne hF h1
      obtain ⟨t1, ht1, hnh⟩ := List.length_filter_lt_length_iff_exists.mp hlt
      refine ⟨?_, ?_, ?_⟩
      · simp only [show (OverallStatus.degraded = OverallStatus.healthy) = False by
          simp]
        constructor
        · exact fun h => h.elim
        · intro h
          exact absurd (hAll.mpr h) h1
      · simp only [show (OverallStatus.degraded = OverallStatus.unhealthy) = False by
          simp]
        constructor
        · exact fun h => h.elim
        · intro h
          obtain ⟨t, ht, htt⟩ := hPos.mp h2
          exact absurd htt (by simp [h t ht])
      · simp only [eq_self_iff_true, true_iff]
        exact ⟨hPos.mp h2, t1, ht1, by simpa using hnh⟩
    · rw [if_neg h2]
      have h0 : (l.filter (·.healthy)).length = 0 := by omega
      refine ⟨?_, iff_of_true rfl (hNone.mp h0), ?_⟩
      · simp only [show (OverallStatus.unhealthy = OverallStatus.healthy) = False by
          simp]
        constructor
        · exact fun h => h.elim
        · intro h
          rw [hAll.mpr h] at h0
          omega
      · simp only [show (OverallStatus.unhealthy = OverallStatus.degraded) = False by
          simp]
        constructor
        · exact fun h => h.elim
        · rintro ⟨⟨t, ht, htt⟩, -⟩
          exact absurd htt (by simp [hNone.mp h0 t ht])

/-- Witness for C2 at a concrete two-record snapshot (one healthy, one
unhealthy): the summary is degraded. -/
theorem overall_health_tristate_witness :
    getOverallHealth exampleState = .degraded ↔
      ((∃ t ∈ getHealthStatus exampleState, t.healthy = true) ∧
       (∃ t ∈ getHealthStatus exampleState, t.healthy = false)) :=
  (overall_health_tristate exampleState (by decide)).2.2

/-- C6: `findAvailableUrl` returns `none` exactly when the healthy set is
empty and otherwise a member of the healthy set; with target A healthy and
target B unhealthy every admissible random draw selects A. -/
theorem select_target_healthy (s : HealthState) (k : Nat)
    (hk : k < (getHealthyTargets s).length ∨ getHealthyTargets s = []) :
    (findAvailableUrl s k = none ↔ getHealthyTargets s = []) ∧
    (∀ u, findAvailableUrl s k = some u → u ∈ getHealthyTargets s) ∧
    (∀ j, j < 1 → findAvailableUrl exampleState j = some "A") := by
  refine ⟨?_, ?_, ?_⟩
  · unfold findAvailableUrl
    rcases hk with hk | hk
    · rw [if_neg (by omega : ¬ (getHealthyTargets s).length = 0)]
      constructor
      · intro hnone
        exact absurd (List.get?_eq_none.mp hnone) (by omega)
      · intro hnil
        rw [hnil] at hk
        exact absurd hk (by simp)
    · simp [hk]
  · intro u hu
    simp only [findAvailableUrl] at hu
    split at hu
    · exact absurd hu (by simp)
    · exact List.get?_mem hu
  · intro j hj
    have hj0 : j = 0 := by omega
    subst hj0
    rfl

/-- Witness for C6 at the concrete two-target snapshot with draw 0. -/
theorem select_target_healthy_witness :
    findAvailableUrl exampleState 0 = none ↔
      getHealthyTargets exampleState = [] :=
  (select_target_healthy exampleState 0 (Or.inl (by decide))).1

/-- `recordHistogram` stores exactly `recordValue` of the previous series. -/
theorem recordHistogram_histograms (m : Metrics) (now : Nat) (name : String)
    (v : Int) :
    (m.recordHistogram now name v).histograms name
      = some (recordValue ((m.histograms name).getD []) ⟨now, v⟩) := by
  simp [Metrics.recordHistogram, recordValue]

/-- Transport a fold of `recordHistogram` calls down to the entries level. -/
theorem foldl_recordHistogram (name : String) (vs : List Int) (m : Metrics)
    (hvs : vs ≠ []) :
    (vs.foldl (fun m v => m.recordHistogram 0 name v) m).histograms name
      = some (vs.foldl (fun es v => recordValue es ⟨0, v⟩)
          ((m.histograms name).getD [])) := by
  induction vs generalizing m with
  | nil => exact absurd rfl hvs
  | cons v rest ih =>
      rw [List.foldl_cons, List.foldl_cons]
      by_cases hr : rest = []
      · subst hr
        simpa using recordHistogram_histograms m 0 name v
      · rw [ih (m.recordHistogram 0 name v) hr, recordHistogram_histograms]
        simp

/-- The series after a burst of inserts is the suffix of the inserted
samples that fits the 1000-sample bound: FIFO eviction, one at a time. -/
theorem foldl_recordValue_drop (vs : List Int) (es : List MetricEntry)
    (hlen : es.length ≤ 1000) :
    vs.foldl (fun es v => recordValue es ⟨0, v⟩) es
      = (es ++ vs.map (fun v => (⟨0, v⟩ : MetricEntry))).drop
          ((es.length + vs.length) - 1000) := by
  induction vs generalizing es with
  | nil => simp [Nat.sub_eq_zero_of_le hlen]
  | cons v rest ih =>
      rw [List.foldl_cons]
      by_cases hfull : es.length = 1000
      · rcases List.exists_cons_of_ne_nil
          (show es ≠ [] by intro h; rw [h] at hfull; simp at hfull) with ⟨b, L, rfl⟩
        have hrv : recordValue (b :: L) ⟨0, v⟩ = L ++ [⟨0, v⟩] := by
          simp only [recordValue]
          rw [if_pos (by simp at hfull ⊢; omega)]
          simp
        have hlen' : (L ++ [(⟨0, v⟩ : MetricEntry)]).length ≤ 1000 := by
          simp at hfull ⊢
          omega
        rw [hrv, ih _ hlen']
        have h1 : (L ++ [(⟨0, v⟩ : MetricEntry)]).length + rest.length - 1000
            = rest.length := by
          simp at hfull ⊢
          omega
        have h2 : (b :: L).length + (v :: rest).length - 1000 = rest.length + 1 := by
          simp at hfull ⊢
          omega
        rw [h1, h2]
        have h3 : (b :: L) ++ (v :: rest).map (fun v => (⟨0, v⟩ : MetricEntry))
            = b :: ((L ++ [(⟨0, v⟩ : MetricEntry)])
                ++ rest.map (fun v => (⟨0, v⟩ : MetricEntry))) := by
          simp
        rw [h3, List.drop_succ_cons]
      · have hlt : es.length < 1000 := lt_of_le_of_ne hlen hfull
        have hrv : recordValue es ⟨0, v⟩ = es ++ [⟨0, v⟩] := by
          simp only [recordValue]
          rw [if_neg (by simp; omega)]
        have hlen' : (es ++ [(⟨0, v⟩ : MetricEntry)]).length ≤ 1000 := by
          simp
          omega
        have h1 : (es ++ [(⟨0, v⟩ : MetricEntry)]).length + rest.length - 1000
            = es.length + (v :: rest).length - 1000 := by
          simp
          omega
        have h2 : (es ++ [(⟨0, v⟩ : MetricEntry)])
              ++ rest.map (fun v => (⟨0, v⟩ : MetricEntry))
            = es ++ (v :: rest).map (fun v => (⟨0, v⟩ : MetricEntry)) := by
          simp
        rw [hrv, ih _ hlen', h1, h2]

/-- In a list sorted ascending, every element is at most the last one. -/
theorem sorted_le_getLast (l : List Int) (hs : l.Sorted (· ≤ ·)) :
    ∀ x ∈ l, ∀ y, l.getLast? = some y → x ≤ y := by
  induction l with
  | nil => simp
  | cons a as ih =>
      intro x hx y hy
      cases as with
      | nil =>
          simp at hy hx
          omega
      | cons b bs =>
          rw [List.getLast?_cons_cons] at hy
          have hymem : y ∈ b :: bs := by
            rw [List.getLast?_eq_getLast (b :: bs) (by simp)] at hy
            have hgl : (b :: bs).getLast (by simp) = y := Option.some.inj hy
            rw [← hgl]
            exact List.getLast_mem _
          rcases List.mem_cons.mp hx with rfl | hx'
          · exact List.rel_of_sorted_cons hs y hymem
          · exact ih (List.Sorted.of_cons hs) x hx' y hy

/-- Explicit form of `getHistogramStats` on a non-empty stored series. -/
theorem getHistogramStats_some (m : Metrics) (name : String)
    (entries : List MetricEntry) (he : m.histograms name = some entries)
    (hne : entries ≠ []) :
    m.getHistogramStats name = some
      ⟨(List.insertionSort (· ≤ ·) (entries.map (·.value))).length,
       ((((List.insertionSort (· ≤ ·) (entries.map (·.value))).sum : Int) : ℚ)) /
         (((List.insertionSort (· ≤ ·) (entries.map (·.value))).length : Nat) : ℚ),
       (List.insertionSort (· ≤ ·) (entries.map (·.value))).headD 0,
       (List.insertionSort (· ≤ ·) (entries.map (·.value))).getLastD 0,
       (List.insertionSort (· ≤ ·) (entries.map (·.value))).getD
         ((List.insertionSort (· ≤ ·) (entries.map (·.value))).length * 95 / 100)
         0⟩ := by
  simp only [Metrics.getHistogramStats, he]
  rw [if_neg (by simpa using hne)]

/-- Components of the ascending sort of a non-empty list of values. -/
theorem insertionSort_components (xs : List Int) (hne : xs ≠ []) :
    ((List.insertionSort (· ≤ ·) xs).length = xs.length) ∧
    ((List.insertionSort (· ≤ ·) xs).sum = xs.sum) ∧
    ((List.insertionSort (· ≤ ·) xs).headD 0 ∈ xs ∧
      ∀ v ∈ xs, (List.insertionSort (· ≤ ·) xs).headD 0 ≤ v) ∧
    ((List.insertionSort (· ≤ ·) xs).getLastD 0 ∈ xs ∧
      ∀ v ∈ xs, v ≤ (List.insertionSort (· ≤ ·) xs).getLastD 0) ∧
    (∀ l : List Int, l.Perm xs → l.Sorted (· ≤ ·) →
      l = List.insertionSort (· ≤ ·) xs) := by
  have hperm := List.perm_insertionSort (· ≤ ·) xs
  have hsorted := List.sorted_insertionSort (· ≤ ·) xs
  have hvne : List.insertionSort (· ≤ ·) xs ≠ [] := by
    intro h
    have := hperm.length_eq
    rw [h] at this
    exact hne (List.length_eq_zero.mp this.symm)
  refine ⟨hperm.length_eq, hperm.sum_eq, ⟨?_, ?_⟩, ⟨?_, ?_⟩, ?_⟩
  · rcases List.exists_cons_of_ne_nil hvne with ⟨c, cs, hcons⟩
    rw [hcons, List.headD_cons]
    exact hperm.subset (hcons ▸ List.mem_cons_self c cs)
  · intro v hv
    have hvmem := hperm.symm.subset hv
    rcases List.exists_cons_of_ne_nil hvne with ⟨c, cs, hcons⟩
    rw [hcons, List.headD_cons]
    rw [hcons] at hvmem
    rcases List.mem_cons.mp hvmem with rfl | h'
    · exact le_refl _
    · exact List.rel_of_sorted_cons (hcons ▸ hsorted) _ h'
  · rw [List.getLastD_eq_getLast?, List.getLast?_eq_getLast _ hvne,
      Option.getD_some]
    exact hperm.subset (List.getLast_mem hvne)
  · intro v hv
    have hvmem := hperm.symm.subset hv
    rw [List.getLastD_eq_getLast?, List.getLast?_eq_getLast _ hvne,
      Option.getD_some]
    exact sorted_le_getLast _ hsorted v hvmem _ (List.getLast?_eq_getLast _ hvne)
  · intro l hp hs
    exact List.eq_of_perm_of_sorted (hp.trans hperm.symm) hs hsorted

/-- The stored series after inserting the casts of `range' a n` into a fresh
registry: the suffix of the samples that fits the 1000-sample bound. -/
theorem fold_range'_histograms (name : String) (a n : Nat) (hn : n ≠ 0) :
    (((List.range' a n).map Int.ofNat).foldl
        (fun m v => m.recordHistogram 0 name v) Metrics.empty).histograms name
      = some (((List.range' a n).map
          (fun k => (⟨0, Int.ofNat k⟩ : MetricEntry))).drop (n - 1000)) := by
  rw [foldl_recordHistogram name _ Metrics.empty
    (by
      intro h
      have := congrArg List.length h
      simp [hn] at this)]
  have hbase : ((Metrics.empty.histograms name).getD []) = [] := rfl
  rw [hbase, foldl_recordValue_drop _ _ (by simp)]
  rw [List.map_map]
  simp only [Function.comp_def, List.length_nil, List.nil_append,
    Nat.zero_add, List.length_map, List.length_range']

/-- `getHistogramStats` over the samples `a, a+1, …, a+n-1`. -/
theorem stats_of_range' (m : Metrics) (name : String) (a n : Nat) (hn : n ≠ 0)
    (he : m.histograms name
      = some ((List.range' a n).map (fun k => (⟨0, Int.ofNat k⟩ : MetricEntry)))) :
    ∃ st, m.getHistogramStats name = some st ∧
      st.count = n ∧ st.min = (a : Int) ∧ st.max = ((a + n - 1 : Nat) : Int) ∧
      st.p95 = ((a + n * 95 / 100 : Nat) : Int) := by
  have hne : (List.range' a n).map (fun k => (⟨0, Int.ofNat k⟩ : MetricEntry)) ≠ [] := by
    intro h
    have := congrArg List.length h
    simp [hn] at this
  have hvals : ((List.range' a n).map
        (fun k => (⟨0, Int.ofNat k⟩ : MetricEntry))).map (·.value)
      = (List.range' a n).map Int.ofNat := by
    rw [List.map_map]
    rfl
  have hsorted' : ((List.range' a n).map Int.ofNat).Sorted (· ≤ ·) := by
    have hp := List.pairwise_lt_range' a n 1
    exact ((hp.map _ (fun x y h => Int.ofNat_lt.mpr h)).imp le_of_lt : _)
  have hsort_eq : List.insertionSort (· ≤ ·)
        (((List.range' a n).map
          (fun k => (⟨0, Int.ofNat k⟩ : MetricEntry))).map (·.value))
      = (List.range' a n).map Int.ofNat := by
    rw [hvals]
    exact List.Sorted.insertionSort_eq hsorted'
  obtain ⟨n', rfl⟩ : ∃ n', n = n' + 1 := ⟨n - 1, by omega⟩
  refine ⟨_, getHistogramStats_some m name _ he hne, ?_, ?_, ?_, ?_⟩
  · show (List.insertionSort (· ≤ ·) _).length = n' + 1
    rw [hsort_eq]
    simp
  · show (List.insertionSort (· ≤ ·) _).headD 0 = (a : Int)
    rw [hsort_eq, List.range'_succ]
    simp
  · show (List.insertionSort (· ≤ ·) _).getLastD 0 = ((a + (n' + 1) - 1 : Nat) : Int)
    rw [hsort_eq, List.range'_concat]
    rw [List.map_append]
    simp only [List.map_cons, List.map_nil]
    rw [List.getLastD_concat]
    congr 1
    omega
  · show (List.insertionSort (· ≤ ·) _).getD
        ((List.insertionSort (· ≤ ·) _).length * 95 / 100) 0
      = ((a + (n' + 1) * 95 / 100 : Nat) : Int)
    rw [hsort_eq]
    have hlen : ((List.range' a (n' + 1)).map Int.ofNat).length
        = n' + 1 := by simp
    rw [hlen]
    have hidx : (n' + 1) * 95 / 100 < n' + 1 :=
      Nat.div_lt_of_lt_mul (by omega)
    rw [List.getD_eq_getElem _ _ (by simpa using hidx)]
    rw [List.getElem_map]
    rw [List.getElem_range']
    congr 1
    omega

/-- C4: on a non-empty series, `getHistogramStats` reports the sample count,
the arithmetic mean, the least and greatest sample, and the nearest-rank
(not interpolated) p95: the entry at 0-indexed position
`floor(count * 0.95)` of any ascending sorting of the samples; on the
values 1..100 the p95 is 96. -/
theorem histogram_stats_nearest_rank (m : Metrics) (name : String)
    (entries : List MetricEntry) (he : m.histograms name = some entries)
    (hne : entries ≠ []) :
    (∃ st, m.getHistogramStats name = some st ∧
      st.count = entries.length ∧
      st.avg * ((entries.length : Nat) : ℚ)
        = (((entries.map (·.value)).sum : Int) : ℚ) ∧
      (st.min ∈ entries.map (·.value) ∧
        ∀ v ∈ entries.map (·.value), st.min ≤ v) ∧
      (st.max ∈ entries.map (·.value) ∧
        ∀ v ∈ entries.map (·.value), v ≤ st.max) ∧
      (∀ l : List Int, l.Perm (entries.map (·.value)) → l.Sorted (· ≤ ·) →
        st.p95 = l.getD (entries.length * 95 / 100) 0)) ∧
    (∃ st, Metrics.getHistogramStats
        (((List.range' 1 100).map Int.ofNat).foldl
          (fun m v => m.recordHistogram 0 "d" v) Metrics.empty) "d"
      = some st ∧ st.count = 100 ∧ st.p95 = 96) := by
  have hmapne : entries.map (·.value) ≠ [] := by
    simp [hne]
  obtain ⟨hlen', hsum', ⟨hminmem, hminle⟩, ⟨hmaxmem, hmaxle⟩, huniq⟩ :=
    insertionSort_components (entries.map (·.value)) hmapne
  have hlv : (List.insertionSort (· ≤ ·) (entries.map (·.value))).length
      = entries.length := by
    simpa [List.length_map] using hlen'
  have hnz : ((entries.length : Nat) : ℚ) ≠ 0 := by
    rw [Nat.cast_ne_zero]
    intro h
    exact hne (List.length_eq_zero.mp h)
  constructor
  · refine ⟨_, getHistogramStats_some m name entries he hne, hlv, ?_,
      ⟨hminmem, hminle⟩, ⟨hmaxmem, hmaxle⟩, ?_⟩
    · show ((((List.insertionSort (· ≤ ·) (entries.map (·.value))).sum : Int) : ℚ))
          / (((List.insertionSort (· ≤ ·) (entries.map (·.value))).length : Nat) : ℚ)
          * ((entries.length : Nat) : ℚ)
        = (((entries.map (·.value)).sum : Int) : ℚ)
      rw [hsum', hlv]
      exact div_mul_cancel₀ _ hnz
    · intro l hp hs
      rw [huniq l hp hs, ← hlv]
  · obtain ⟨st, hst, hc, -, -, hp95⟩ :=
      stats_of_range'
        (((List.range' 1 100).map Int.ofNat).foldl
          (fun m v => m.recordHistogram 0 "d" v) Metrics.empty) "d" 1 100
        (by omega)
        (by simpa using fold_range'_histograms "d" 1 100 (by omega))
    exact ⟨st, hst, hc, by simpa using hp95⟩

/-- Witness for C4 at a one-sample series, carrying the 1..100 instance. -/
theorem histogram_stats_nearest_rank_witness :
    ∃ st, Metrics.getHistogramStats
        (((List.range' 1 100).map Int.ofNat).foldl
          (fun m v => m.recordHistogram 0 "d" v) Metrics.empty) "d"
      = some st ∧ st.count = 100 ∧ st.p95 = 96 :=
  (histogram_stats_nearest_rank (Metrics.empty.recordHistogram 7 "w2" 5) "w2"
    [⟨7, 5⟩] rfl (by decide)).2

/-- C3: `recordHistogram` keeps at most 1000 samples per name, evicting
exactly the single oldest sample (front of the insertion-ordered series)
when an insert exceeds the bound; recording the 1500 values 1..1500 into an
empty registry leaves stats with count 1000, min 501, max 1500. -/
theorem histogram_fifo_bound (m : Metrics) (name : String) (now : Nat) (v : Int)
    (hlen : ((m.histograms name).getD []).length ≤ 1000) :
    ((m.recordHistogram now name v).histograms name
       = some (if ((m.histograms name).getD []).length = 1000
           then ((m.histograms name).getD []).tail ++ [⟨now, v⟩]
           else (m.histograms name).getD [] ++ [⟨now, v⟩]) ∧
     (((m.recordHistogram now name v).histograms name).getD []).length ≤ 1000) ∧
    (∃ st, Metrics.getHistogramStats
        (((List.range' 1 1500).map Int.ofNat).foldl
          (fun m v => m.recordHistogram 0 "h" v) Metrics.empty) "h"
      = some st ∧ st.count = 1000 ∧ st.min = 501 ∧ st.max = 1500) := by
  constructor
  · constructor
    · rw [recordHistogram_histograms]
      congr 1
      by_cases hfull : ((m.histograms name).getD []).length = 1000
      · rw [if_pos hfull]
        simp only [recordValue]
        rw [if_pos (by simp [hfull])]
        exact List.tail_append_of_ne_nil
          (by intro h; rw [h] at hfull; simp at hfull)
      · rw [if_neg hfull]
        simp only [recordValue]
        rw [if_neg (by simp; omega)]
    · rw [recordHistogram_histograms]
      simp only [Option.getD_some, recordValue]
      split
      · next hgt =>
          simp at hgt ⊢
          omega
      · next hle =>
          simp at hle ⊢
          omega
  · have hsplit : List.range' 1 500 ++ List.range' 501 1000 = List.range' 1 1500 := by
      have h := List.range'_append 1 500 1000 1
      norm_num at h
      exact h
    have hdrop : ((List.range' 1 1500).map
          (fun k => (⟨0, Int.ofNat k⟩ : MetricEntry))).drop 500
        = (List.range' 501 1000).map (fun k => (⟨0, Int.ofNat k⟩ : MetricEntry)) := by
      rw [← hsplit, List.map_append]
      exact List.drop_left' (by simp)
    have he' : (((List.range' 1 1500).map Int.ofNat).foldl
          (fun m v => m.recordHistogram 0 "h" v) Metrics.empty).histograms "h"
        = some ((List.range' 501 1000).map
            (fun k => (⟨0, Int.ofNat k⟩ : MetricEntry))) := by
      rw [fold_range'_histograms "h" 1 1500 (by omega),
        show (1500 - 1000 : Nat) = 500 by norm_num, hdrop]
    obtain ⟨st, hst, hc, hmin, hmax, -⟩ :=
      stats_of_range' _ "h" 501 1000 (by omega) he'
    exact ⟨st, hst, hc, by exact_mod_cast hmin, by exact_mod_cast hmax⟩

/-- Witness for C3: the empty registry satisfies the length bound, and the
1..1500 burst reports count 1000, min 501, max 1500. -/
theorem histogram_fifo_bound_witness :
    ∃ st, Metrics.getHistogramStats
        (((List.range' 1 1500).map Int.ofNat).foldl
          (fun m v => m.recordHistogram 0 "h" v) Metrics.empty) "h"
      = some st ∧ st.count = 1000 ∧ st.min = 501 ∧ st.max = 1500 :=
  (histogram_fifo_bound Metrics.empty "w3" 2 9 (by decide)).2

/-- `recordFailure` never touches the `healthStatus` map. -/
theorem recordFailure_healthStatus (s : HealthState) (threshold now : Nat)
    (url : String) :
    (recordFailure s threshold now url).healthStatus = s.healthStatus := by
  simp only [recordFailure]
  split <;> rfl

/-- `recordSuccess` never touches the `healthStatus` map. -/
theorem recordSuccess_healthStatus (s : HealthState) (url : String) :
    (recordSuccess s url).healthStatus = s.healthStatus := rfl

/-- Keys of `mapSet`: the old keys plus possibly the inserted one. -/
theorem mem_keys_mapSet (m : List (String × TargetHealth)) (key u : String)
    (v : TargetHealth) :
    u ∈ (mapSet m key v).map (·.1) ↔ u ∈ m.map (·.1) ∨ u = key := by
  unfold mapSet
  split
  · next hany =>
      have hkeys_eq : (m.map (fun p => if p.1 == key then (key, v) else p)).map (·.1)
          = m.map (·.1) := by
        rw [List.map_map]
        apply List.map_congr_left
        intro p hp
        by_cases h : p.1 == key
        · simp only [Function.comp_apply, if_pos h]
          exact (eq_of_beq h).symm
        · simp only [Function.comp_apply, if_neg h]
      rw [hkeys_eq]
      constructor
      · exact Or.inl
      · rintro (hu | rfl)
        · exact hu
        · obtain ⟨p, hp, hpk⟩ := List.any_eq_true.mp hany
          have : p.1 = u := eq_of_beq hpk
          rw [← this]
          exact List.mem_map_of_mem _ hp
  · next hnone =>
      rw [List.map_append]
      simp [List.mem_append]

/-- Keys after one `checkTarget`: the old keys, plus the probed url when the
probe actually ran (breaker closed). -/
theorem mem_healthKeys_checkTarget (s : HealthState) (threshold now : Nat)
    (probe : ProbeResult) (url u : String) :
    u ∈ healthKeys (checkTarget s threshold now probe url).1
      ↔ u ∈ healthKeys s ∨ (isCircuitOpen s now url = false ∧ u = url) := by
  unfold checkTarget
  split
  · next hopen =>
      simp [healthKeys, hopen]
  · next hclosed =>
      have hcl : isCircuitOpen s now url = false := by
        simpa using hclosed
      cases probe with
      | success rt =>
          simp only [healthKeys, recordSuccess_healthStatus, mem_keys_mapSet]
          simp [hcl]
      | failure msg =>
          simp only [healthKeys, recordFailure_healthStatus, mem_keys_mapSet]
          simp [hcl]

/-- `checkTarget` on one url leaves every other url's breaker entry alone. -/
theorem checkTarget_breaker_frame (s : HealthState) (threshold now : Nat)
    (probe : ProbeResult) (url u : String) (hne : u ≠ url) :
    (checkTarget s threshold now probe url).1.circuitBreakerOpenUntil u
      = s.circuitBreakerOpenUntil u := by
  unfold checkTarget
  split
  · rfl
  · cases probe with
    | success rt =>
        simp only [recordSuccess]
        simp [if_neg hne]
    | failure msg =>
        simp only [recordFailure]
        split <;> simp [if_neg hne]

/-- A probe cycle never deletes a tracked url. -/
theorem healthKeys_checkAllTargets_mono (targets : List String)
    (s : HealthState) (threshold now : Nat) (probes : String → ProbeResult)
    (u : String) (hu : u ∈ healthKeys s) :
    u ∈ healthKeys (checkAllTargets s threshold now probes targets) := by
  induction targets generalizing s with
  | nil => exact hu
  | cons v rest ih =>
      exact ih _ ((mem_healthKeys_checkTarget _ _ _ _ _ _).mpr (Or.inl hu))

/-- A probe cycle only ever adds urls of the probed target list. -/
theorem healthKeys_checkAllTargets_subset (targets : List String)
    (s : HealthState) (threshold now : Nat) (probes : String → ProbeResult)
    (u : String)
    (h : u ∈ healthKeys (checkAllTargets s threshold now probes targets)) :
    u ∈ healthKeys s ∨ u ∈ targets := by
  induction targets generalizing s with
  | nil => exact Or.inl h
  | cons v rest ih =>
      rcases ih _ h with h' | h'
      · rcases (mem_healthKeys_checkTarget _ _ _ _ _ _).mp h' with h2 | ⟨-, rfl⟩
        · exact Or.inl h2
        · exact Or.inr (List.mem_cons_self _ _)
      · exact Or.inr (List.mem_cons_of_mem _ h')

/-- A probed target whose breaker entry is absent ends up tracked. -/
theorem healthKeys_checkAllTargets_complete (targets : List String)
    (s : HealthState) (threshold now : Nat) (probes : String → ProbeResult)
    (u : String) (hclosed : s.circuitBreakerOpenUntil u = none)
    (hu : u ∈ targets) :
    u ∈ healthKeys (checkAllTargets s threshold now probes targets) := by
  induction targets generalizing s with
  | nil => cases hu
  | cons v rest ih =>
      by_cases hv : u = v
      · subst hv
        have hkey : u ∈ healthKeys (checkTarget s threshold now (probes u) u).1 :=
          (mem_healthKeys_checkTarget _ _ _ _ _ _).mpr
            (Or.inr ⟨by simp [isCircuitOpen, hclosed], rfl⟩)
        exact healthKeys_checkAllTargets_mono rest _ threshold now probes u hkey
      · have hu' : u ∈ rest := by
          rcases List.mem_cons.mp hu with h | h
          · exact absurd h hv
          · exact h
        have hframe : (checkTarget s threshold now (probes v) v).1.circuitBreakerOpenUntil u
            = none := by
          rw [checkTarget_breaker_frame s threshold now (probes v) v u hv]
          exact hclosed
        exact ih _ hframe hu'

/-- C9: after the first full probe cycle from the fresh state the tracked
url set equals the configured target list; any later cycle preserves that
equality, and no cycle ever deletes a tracked record. -/
theorem health_keys_match_targets (threshold now now2 : Nat)
    (probes probes2 : String → ProbeResult) (targets : List String)
    (s : HealthState)
    (hkeys : ∀ u, u ∈ healthKeys s ↔ u ∈ targets) :
    (∀ u, u ∈ healthKeys
        (checkAllTargets HealthState.initial threshold now probes targets)
      ↔ u ∈ targets) ∧
    (∀ u, u ∈ healthKeys (checkAllTargets s threshold now2 probes2 targets)
      ↔ u ∈ targets) ∧
    (∀ u, u ∈ healthKeys s →
      u ∈ healthKeys (checkAllTargets s threshold now2 probes2 targets)) := by
  refine ⟨?_, ?_, ?_⟩
  · intro u
    constructor
    · intro h
      rcases healthKeys_checkAllTargets_subset targets _ threshold now probes u h
        with h' | h'
      · exact absurd h' (by simp [healthKeys, HealthState.initial])
      · exact h'
    · intro hu
      exact healthKeys_checkAllTargets_complete targets _ threshold now probes u
        rfl hu
  · intro u
    constructor
    · intro h
      rcases healthKeys_checkAllTargets_subset targets s threshold now2 probes2 u h
        with h' | h'
      · exact (hkeys u).mp h'
      · exact h'
    · intro hu
      exact healthKeys_checkAllTargets_mono targets s threshold now2 probes2 u
        ((hkeys u).mpr hu)
  · intro u hu
    exact healthKeys_checkAllTargets_mono targets s threshold now2 probes2 u hu

/-- Witness for C9 at a concrete two-target configuration. -/
theorem health_keys_match_targets_witness :
    "A" ∈ healthKeys
        (checkAllTargets HealthState.initial 3 0
          (fun _ => ProbeResult.failure "down") ["A", "B"])
      ↔ "A" ∈ ["A", "B"] :=
  (health_keys_match_targets 3 0 5
    (fun _ => ProbeResult.failure "down") (fun _ => ProbeResult.success 1)
    ["A", "B"] exampleState (fun _ => Iff.rfl)).1 "A"

end Proxy
